import Mathlib

/-! Verification of the topic pipeline in `scripts/build_data.py`
(class `TrendsDataPipeline`).

Modelling conventions:
* Python floats are modelled by exact rationals (`ℚ`).
* Sparkline samples are Python ints, modelled by `ℤ`.
* `numpy` takes a square root inside `np.std`; the square root on `ℚ` is kept
  as an explicit function parameter `sqrt : ℚ → ℚ`, so every definition stays
  executable and no property of the square root is assumed anywhere.
* The four `rapidfuzz` string scorers (`fuzz.ratio`, `fuzz.partial_ratio`,
  `fuzz.token_sort_ratio`, `fuzz.token_set_ratio`) live in an external
  package, so they are abstracted as an arbitrary quadruple of scoring
  functions (`FuzzAlgs`); no property of theirs is assumed either.
* Exceptions are modelled with `Except String`.
-/

namespace BuildData

/-- Model of `np.mean xs` as exact rational arithmetic: `sum / len`.  (`np.mean []` is
`nan` in numpy; every call site in the source guards the length, and `ℚ`
division by zero gives `0` here.) -/
def meanQ (xs : List ℚ) : ℚ := xs.sum / xs.length

/-- Model of `np.median xs`: sort ascending, then the middle element (odd length) or
the average of the two middle elements (even length). -/
def medianQ (xs : List ℚ) : ℚ :=
  let s := xs.insertionSort (· ≤ ·)
  let n := s.length
  if n = 0 then 0
  else if n % 2 = 1 then s[n / 2]!
  else (s[n / 2 - 1]! + s[n / 2]!) / 2

/-- Python slice `xs[-k:]` (for `k ≥ len` this is the whole list, as in
Python). -/
def lastN (k : ℕ) (xs : List α) : List α := xs.drop (xs.length - k)

/-- Python slice `xs[:-k]`. -/
def dropLastN (k : ℕ) (xs : List α) : List α := xs.take (xs.length - k)

/-- Python slice `xs[-8:-4]`: start `max 0 (len-8)`, stop `max 0 (len-4)`,
written with truncated `ℕ` subtraction. -/
def prior4 (xs : List α) : List α :=
  (xs.drop (xs.length - 8)).take (xs.length - 4 - (xs.length - 8))

/-- A sparkline of Python ints viewed as rationals (numpy promotes to
float). -/
def sparkQ (xs : List ℤ) : List ℚ := xs.map (fun v : ℤ => (v : ℚ))

/-- The slope coefficient of `np.polyfit(x, y, 1)` with `x = 0, 1, ..., n-1`:
the least-squares line slope `(n·Σxy − Σx·Σy) / (n·Σx² − (Σx)²)`. -/
def polyfitSlope (ys : List ℚ) : ℚ :=
  let xs : List ℚ := (List.range ys.length).map (fun i : ℕ => (i : ℚ))
  let n : ℚ := ys.length
  let sx := xs.sum
  let sy := ys.sum
  let sxy := ((xs.zip ys).map (fun p => p.1 * p.2)).sum
  let sxx := (xs.map (fun x => x * x)).sum
  (n * sxy - sx * sy) / (n * sxx - sx * sx)

/-- The population variance `mean ((x - mean xs)²)`. -/
def varianceQ (xs : List ℚ) : ℚ := meanQ (xs.map (fun x => (x - meanQ xs) ^ 2))

/-- Model of `np.std xs` (population standard deviation), with the square root kept
abstract. -/
def stdQ (sqrt : ℚ → ℚ) (xs : List ℚ) : ℚ := sqrt (varianceQ xs)

/-- Model of `np.percentile(xs, q)` with numpy's default linear interpolation:
`h = (n-1)·q/100`, result `s[⌊h⌋] + (h - ⌊h⌋)·(s[⌊h⌋+1] - s[⌊h⌋])` over the
ascending sort `s`. -/
def npPercentile (q : ℚ) (xs : List ℚ) : ℚ :=
  let s := xs.insertionSort (· ≤ ·)
  let n := s.length
  let h : ℚ := ((n : ℚ) - 1) * q / 100
  let lo : ℕ := (⌊h⌋).toNat
  let hi : ℕ := min (lo + 1) (n - 1)
  s[lo]! + (h - (lo : ℚ)) * (s[hi]! - s[lo]!)

/-- One topic dict of the pipeline (`_process_category`'s entry, minus the
transient `debug` sub-dict).  Timestamps are kept as opaque strings. -/
structure Topic where
  term : String
  category : String
  score : ℚ
  percentChange : ℚ
  sparkline : List ℤ
  firstSeen : String
  lastSeen : String
  volume : ℤ
  relatedQueries : List String
  deriving DecidableEq, Repr

/-- Embedding of `_calculate_score` (build_data.py 278-302): slope over the last 8 weeks,
percent change of the last 4 weeks vs the previous 4, population standard
deviation of the whole series; `(0,0,0)` for fewer than 8 samples. -/
def calculate_score (sqrt : ℚ → ℚ) (sparkline : List ℤ) : ℚ × ℚ × ℚ :=
  if sparkline.length < 8 then (0, 0, 0)
  else
    let all_weeks := sparkQ sparkline
    let last_8_weeks := lastN 8 all_weeks
    let slope := if 1 < last_8_weeks.length then polyfitSlope last_8_weeks else 0
    let percent_change :=
      if 8 ≤ all_weeks.length then
        let recent_4 := meanQ (lastN 4 all_weeks)
        let previous_4 := meanQ (prior4 all_weeks)
        if 0 < previous_4 then (recent_4 - previous_4) / previous_4 * 100 else 0
      else 0
    let volatility := if 1 < all_weeks.length then stdQ sqrt all_weeks else 0
    (slope, percent_change, volatility)

/-- Embedding of `_normalize_score` (build_data.py 304-315): z-score normalization of a
batch of values, an all-zero vector when there are fewer than 2 values or the
standard deviation is zero. -/
def normalize_score (sqrt : ℚ → ℚ) (values : List ℚ) : List ℚ :=
  if values.length < 2 then List.replicate values.length 0
  else
    let mean_val := meanQ values
    let std_val := stdQ sqrt values
    if std_val = 0 then List.replicate values.length 0
    else values.map (fun val => (val - mean_val) / std_val)

/-- Embedding of `_normalize_term_for_dedup` (build_data.py 317-329): lowercase, strip,
drop `-`/`_`/`.`, collapse whitespace runs to single spaces. -/
def normalize_term_for_dedup (term : String) : String :=
  let normalized := term.toLower.trim
  let normalized := ((normalized.replace "-" "").replace "_" "").replace "." ""
  String.intercalate " " ((normalized.split (fun c => c.isWhitespace)).filter (fun s => s ≠ ""))

/-- Embedding of `_calculate_similarity_threshold` (build_data.py 331-348).  The digit scan
`any(char.isdigit() for char in term1 + term2)` is written over the character
lists of the concatenation. -/
def calculate_similarity_threshold (term1 term2 : String) : ℕ :=
  let base_threshold := 85
  if term1.length ≤ 3 ∨ term2.length ≤ 3 then 75
  else if (term1 ++ term2).data.any Char.isDigit then 80
  else if 20 < term1.length ∨ 20 < term2.length then 90
  else base_threshold

/-- The four `rapidfuzz` scorers used by `_deduplicate_topics`
(`fuzz.ratio`, `fuzz.partial_ratio`, `fuzz.token_sort_ratio`,
`fuzz.token_set_ratio`), abstracted as arbitrary score functions. -/
structure FuzzAlgs where
  wholeSim : String → String → ℚ
  substringSim : String → String → ℚ
  tokenSortSim : String → String → ℚ
  tokenSetSim : String → String → ℚ

/-- Maximum `max(ratio, partial_ratio, token_sort_ratio, token_set_ratio)` for one
pair of normalized terms (build_data.py 383-389). -/
def maxSim (F : FuzzAlgs) (a b : String) : ℚ :=
  max (max (max (F.wholeSim a b) (F.substringSim a b)) (F.tokenSortSim a b)) (F.tokenSetSim a b)

/-- The inner `for existing in unique_topics` loop of `_deduplicate_topics`
(build_data.py 378-399), accumulating `(is_duplicate, best_match,
best_similarity)`. -/
def bestLoop (F : FuzzAlgs) (nt : String) : List Topic → Bool × Option Topic × ℚ → Bool × Option Topic × ℚ
  | [], acc => acc
  | existing :: rest, (is_dup, best, best_sim) =>
    let en := normalize_term_for_dedup existing.term
    let m := maxSim F nt en
    let th : ℚ := (calculate_similarity_threshold nt en : ℕ)
    if th < m then
      bestLoop F nt rest
        (true, (if best_sim < m then some existing else best), (if best_sim < m then m else best_sim))
    else
      bestLoop F nt rest (is_dup, best, best_sim)

/-- One iteration of the outer loop of `_deduplicate_topics`
(build_data.py 364-414): state is `(unique_topics, seen_terms)`. -/
def dedupStep (F : FuzzAlgs) (st : List Topic × List String) (topic : Topic) : List Topic × List String :=
  let (unique_topics, seen_terms) := st
  let nt := normalize_term_for_dedup topic.term
  if nt ∈ seen_terms then st
  else
    let r := bestLoop F nt unique_topics (false, none, 0)
    if r.1 then
      match r.2.1 with
      | some best_match =>
        if best_match.score < topic.score then
          (unique_topics.erase best_match ++ [topic], seen_terms)
        else (unique_topics, seen_terms)
      | none => (unique_topics ++ [topic], nt :: seen_terms)
    else (unique_topics ++ [topic], nt :: seen_terms)

/-- The descending-score order used by `sorted(topics, key=lambda x:
x['score'], reverse=True)`. -/
def scoreGe (a b : Topic) : Prop := b.score ≤ a.score

instance : DecidableRel scoreGe := fun a b => inferInstanceAs (Decidable (b.score ≤ a.score))

instance : IsTotal Topic scoreGe := ⟨fun a b => le_total b.score a.score⟩

instance : IsTrans Topic scoreGe := ⟨fun _ _ _ h1 h2 => le_trans h2 h1⟩

/-- Embedding of `_deduplicate_topics` (build_data.py 350-417): sort by score descending
(stably), then walk the sorted list keeping non-duplicates. -/
def deduplicate_topics (F : FuzzAlgs) (topics : List Topic) : List Topic :=
  if topics.isEmpty then topics
  else
    let topics_sorted := topics.insertionSort scoreGe
    (topics_sorted.foldl (dedupStep F) ([], [])).1

/-- Embedding of `_passes_quality_filters` (build_data.py 419-468), as the pure boolean
gate on `(sparkline, slope, percent_change, volatility, minVolumeThreshold)`. -/
def passes_quality_filters (sparkline : List ℤ) (slope percent_change volatility : ℚ)
    (min_volume : ℚ) : Bool :=
  let median_volume := medianQ (lastN 8 (sparkQ sparkline))
  if median_volume < min_volume then false
  else if sparkline.length < 8 then false
  else if 50 < volatility then false
  else if (lastN 4 sparkline).all (fun v => v == 0) then false
  else if (7 : ℚ) / 10 < (sparkline.countP (fun v => v == 0) : ℚ) / sparkline.length then false
  else if |slope| < 1 / 10 ∧ |percent_change| < 5 then false
  else if 4 < sparkline.length ∧
      meanQ (dropLastN 4 (sparkQ sparkline)) * 10 < meanQ (lastN 4 (sparkQ sparkline)) then false
  else true

/-- Embedding of `_apply_final_filtering_and_capping` (build_data.py 470-531): drop
non-positive scores, drop below the 10th percentile of the remaining scores,
hard-cap at 150.  (Steps 4 and 5 of the source only log statistics and do not
change the returned list.) -/
def apply_final_filtering_and_capping (topics : List Topic) : List Topic :=
  if topics.isEmpty then topics
  else
    let positive_score_topics := topics.filter (fun t => decide (0 < t.score))
    let quality_topics :=
      if positive_score_topics.isEmpty then positive_score_topics
      else
        let scores := positive_score_topics.map (·.score)
        let score_threshold := npPercentile 10 scores
        positive_score_topics.filter (fun t => decide (score_threshold ≤ t.score))
    if 150 < quality_topics.length then quality_topics.take 150 else quality_topics

/-- Embedding of `_calculate_final_scores` (build_data.py 579-617): recompute slope and
volatility per topic, z-normalize the three component vectors across the
batch, and write `z(slope) + 0.7·z(percentChange) - 0.3·z(volatility)` into
each topic's score. -/
def calculate_final_scores (sqrt : ℚ → ℚ) (all_topics : List Topic) : List Topic :=
  if all_topics.isEmpty then all_topics
  else
    let slopes := all_topics.map (fun topic =>
      if 8 ≤ topic.sparkline.length then
        let last_8_weeks := lastN 8 (sparkQ topic.sparkline)
        if 1 < last_8_weeks.length then polyfitSlope last_8_weeks else 0
      else 0)
    let percent_changes := all_topics.map (·.percentChange)
    let volatilities := all_topics.map (fun topic =>
      if 1 < topic.sparkline.length then stdQ sqrt (sparkQ topic.sparkline) else 0)
    let norm_slopes := normalize_score sqrt slopes
    let norm_percent_changes := normalize_score sqrt percent_changes
    let norm_volatilities := normalize_score sqrt volatilities
    all_topics.mapIdx (fun i topic =>
      { topic with
        score := norm_slopes[i]! + 0.7 * norm_percent_changes[i]! - 0.3 * norm_volatilities[i]! })

/-- The local names `_process_category` (build_data.py 533-577) binds before
the topic dict literal at line 557 is evaluated.  `median_volume` is not
among them: that name is assigned only inside `_passes_quality_filters`
(line 423), and Python function locals do not leak between functions; no
module-level or builtin `median_volume` exists either. -/
def process_category_locals : List String :=
  ["category", "terms", "topics", "term", "sparkline", "slope", "percent_change",
   "volatility", "related_queries"]

/-- Evaluating `int(median_volume)` at build_data.py 565: resolve the name
`median_volume` in `_process_category`'s scope.  The intended value is the
last-8-sample median of the current sparkline (`int` truncates; the median of
nonnegative samples is nonnegative, so truncation is `⌊·⌋`); an unbound name
raises `NameError`. -/
def eval_median_volume (sparkline : List ℤ) : Except String ℚ :=
  if "median_volume" ∈ process_category_locals then
    Except.ok (medianQ (lastN 8 (sparkQ sparkline)))
  else Except.error "NameError: name median_volume is not defined"

/-- The per-term body of `_process_category` (build_data.py 538-575) after a
sparkline has been fetched: compute the score components, apply the quality
filters (`none` = the term is skipped), then build the topic dict — whose
`volume` entry evaluates `int(median_volume)`. -/
def process_term (sqrt : ℚ → ℚ) (min_volume : ℚ) (category term : String)
    (sparkline : List ℤ) (related_queries : List String) (now : String) :
    Option (Except String Topic) :=
  let c := calculate_score sqrt sparkline
  let slope := c.1
  let percent_change := c.2.1
  let volatility := c.2.2
  if passes_quality_filters sparkline slope percent_change volatility min_volume then
    some (match eval_median_volume sparkline with
      | Except.error e => Except.error e
      | Except.ok mv =>
        Except.ok { term := term, category := category, score := 0,
                    percentChange := percent_change, sparkline := sparkline,
                    firstSeen := now, lastSeen := now, volume := ⌊mv⌋,
                    relatedQueries := related_queries.take 3 })
  else none

/-- The category loop of `run` (build_data.py 858-878): each category's
processing either yields its topics or raises; a raise is caught and the loop
continues, so the batch accumulates exactly the successful categories'
topics in order. -/
def collect_categories (results : List (Except String (List Topic))) : List Topic :=
  results.foldl (fun acc r => match r with
    | Except.ok ts => acc ++ ts
    | Except.error _ => acc) []

/-- A guarded pipeline stage of `run` (build_data.py 884-925): dedup, final
scoring and final filtering each run inside `try/except` blocks that fall
back to the unmodified topic list on an exception. -/
def try_stage (f : List Topic → Except String (List Topic)) (ts : List Topic) : List Topic :=
  match f ts with
  | Except.ok ts2 => ts2
  | Except.error _ => ts

/-- Exception-flow model of `run` (build_data.py 846-958).  The fallible
collaborators are passed as `Except`-valued stages.  Category errors and
dedup/scoring/filtering errors are swallowed; an error from `_save_data` is
re-raised (line 937), reaches the outer handler and makes `run` return
`False`.  Result: `(success flag, final topic list)`. -/
def run_pipeline (cats : List (Except String (List Topic)))
    (dedup_stage score_stage filter_stage : List Topic → Except String (List Topic))
    (save_stage : List Topic → Except String Unit) : Bool × List Topic :=
  let all0 := collect_categories cats
  let all1 := try_stage dedup_stage all0
  let all2 := try_stage score_stage all1
  let all3 := all2.insertionSort scoreGe
  let all4 := try_stage filter_stage all3
  match save_stage all4 with
  | Except.ok _ => (true, all4)
  | Except.error _ => (false, all4)

/-! Spec-side definitions: statements of the specification written from the
spec's own words, to be compared with the source embedding above. -/

/-- Spec §4.2, written from the spec's wording: the conjunction of the seven
quality gates. -/
def passesFiltersSpec (sparkline : List ℤ) (slope percent_change volatility : ℚ)
    (min_volume : ℚ) : Prop :=
  min_volume ≤ medianQ (lastN 8 (sparkQ sparkline)) ∧
  8 ≤ sparkline.length ∧
  volatility ≤ 50 ∧
  ¬ (∀ v ∈ lastN 4 sparkline, v = 0) ∧
  (sparkline.countP (fun v => v == 0) : ℚ) / sparkline.length ≤ 7 / 10 ∧
  ¬ (|slope| < 1 / 10 ∧ |percent_change| < 5) ∧
  (4 < sparkline.length →
    meanQ (lastN 4 (sparkQ sparkline)) ≤ meanQ (dropLastN 4 (sparkQ sparkline)) * 10)

/-- Spec §4.3, written from the spec's wording: 75 if either term has length
≤ 3, else 80 if either term contains a digit, else 90 if either term is
longer than 20 characters, else the base 85 — first matching rule wins. -/
def thresholdSpec (term1 term2 : String) : ℕ :=
  if term1.length ≤ 3 ∨ term2.length ≤ 3 then 75
  else if term1.data.any Char.isDigit ∨ term2.data.any Char.isDigit then 80
  else if 20 < term1.length ∨ 20 < term2.length then 90
  else 85

/-- Spec §4.1: the slope recomputed as the least-squares fit over the last 8
samples of a topic's sparkline. -/
def specSlope (t : Topic) : ℚ := polyfitSlope (lastN 8 (sparkQ t.sparkline))

/-- Spec §4.1: volatility as the population standard deviation of the full
sparkline. -/
def specVolatility (sqrt : ℚ → ℚ) (t : Topic) : ℚ := stdQ sqrt (sparkQ t.sparkline)

/-- Variant of `dedupStep` with the replacement branch replaced by a plain discard: a
fuzzy or exact duplicate candidate is always dropped.  `deduplicate_topics`
provably never takes the replacement branch, i.e. agrees with the walk built
from this step. -/
def dedupStepNR (F : FuzzAlgs) (st : List Topic × List String) (topic : Topic) : List Topic × List String :=
  let (unique_topics, seen_terms) := st
  let nt := normalize_term_for_dedup topic.term
  if nt ∈ seen_terms then st
  else if (bestLoop F nt unique_topics (false, none, 0)).1 then st
  else (unique_topics ++ [topic], nt :: seen_terms)

/-- Variant of `deduplicate_topics` with the replacement-free step. -/
def dedupNR (F : FuzzAlgs) (topics : List Topic) : List Topic :=
  if topics.isEmpty then topics
  else ((topics.insertionSort scoreGe).foldl (dedupStepNR F) ([], [])).1

/-- The pure greedy selection underlying the duplicate walk: extend `kept`
with each candidate whose normalized term is new and which matches no kept
topic above its threshold. -/
def keptExtend (F : FuzzAlgs) : List Topic → List Topic → List Topic
  | kept, [] => kept
  | kept, t :: rest =>
    let nt := normalize_term_for_dedup t.term
    if nt ∉ kept.map (fun k => normalize_term_for_dedup k.term) ∧
        (bestLoop F nt kept (false, none, 0)).1 = false then
      keptExtend F (kept ++ [t]) rest
    else keptExtend F kept rest

/-- Predicate `KeptChain F pre tail`: every element of `tail` is accepted by the
duplicate walk when examined after `pre` followed by the earlier elements of
`tail`. -/
inductive KeptChain (F : FuzzAlgs) : List Topic → List Topic → Prop
  | nil (pre : List Topic) : KeptChain F pre []
  | cons (pre : List Topic) (t : Topic) (rest : List Topic)
      (hseen : normalize_term_for_dedup t.term ∉ pre.map (fun k => normalize_term_for_dedup k.term))
      (hdup : (bestLoop F (normalize_term_for_dedup t.term) pre (false, none, 0)).1 = false)
      (htail : KeptChain F (pre ++ [t]) rest) : KeptChain F pre (t :: rest)

/-- A concrete two-topic batch (both sparklines have 8 samples), used to
evaluate the batch-scoring characterization on an explicit input. -/
def sampleBatch : List Topic :=
  [⟨"alpha", "tech", 0, 20, [1, 2, 3, 4, 5, 6, 7, 8], "t0", "t1", 4, []⟩,
   ⟨"beta", "tech", 0, 5, [8, 7, 6, 5, 4, 3, 2, 1], "t0", "t1", 4, []⟩]

/-! Theorems. -/

/-- C5: the dynamic similarity threshold is 75 if either term has length
≤ 3, otherwise 80 if either term contains a digit, otherwise 90 if either
term is longer than 20 characters, otherwise 85, rules checked in that order
with the first match winning; and the three concrete evaluations
`calculateThreshold("ai", "a.i.") = 75`,
`calculateThreshold("python3", "python 3") = 80`,
`calculateThreshold("very long term name here", "another very long term
name") = 90` hold. -/
theorem c5_similarity_threshold :
    (∀ term1 term2, calculate_similarity_threshold term1 term2 = thresholdSpec term1 term2) ∧
    calculate_similarity_threshold "ai" "a.i." = 75 ∧
    calculate_similarity_threshold "python3" "python 3" = 80 ∧
    calculate_similarity_threshold "very long term name here" "another very long term name" = 90 := by
  refine ⟨fun term1 term2 => ?_, by decide, by decide, by decide⟩
  unfold calculate_similarity_threshold thresholdSpec
  have hd : (term1 ++ term2).data.any Char.isDigit =
      (term1.data.any Char.isDigit || term2.data.any Char.isDigit) := by
    have : (term1 ++ term2).data = term1.data ++ term2.data := by
      simp [String.data_append]
    rw [this, List.any_append]
  simp only [hd, Bool.or_eq_true]

/-- C7: for every sparkline of length strictly less than 8,
`_calculate_score` returns exactly `(0, 0, 0)`. -/
theorem c7_short_sparkline_zero (sqrt : ℚ → ℚ) (sparkline : List ℤ)
    (h : sparkline.length < 8) : calculate_score sqrt sparkline = (0, 0, 0) := by
  simp [calculate_score, h]

/-- Witness for C7 at the 3-sample sparkline `[1, 2, 3]`. -/
theorem c7_short_sparkline_zero_witness :
    ([1, 2, 3] : List ℤ).length < 8 ∧ calculate_score id [1, 2, 3] = (0, 0, 0) :=
  ⟨by norm_num, c7_short_sparkline_zero id [1, 2, 3] (by norm_num)⟩

/-- C8: degenerate math resolves to 0.  If the mean of the prior-4-week
window is ≤ 0 then the percent-change component of `_calculate_score` is 0,
and `_normalize_score` returns an all-zero vector of the input's length
whenever the input has fewer than 2 values or zero standard deviation. -/
theorem c8_degenerate_math_zero (sqrt : ℚ → ℚ) (sparkline : List ℤ) (values : List ℚ) :
    (meanQ (prior4 (sparkQ sparkline)) ≤ 0 → (calculate_score sqrt sparkline).2.1 = 0) ∧
    (values.length < 2 ∨ stdQ sqrt values = 0 →
      normalize_score sqrt values = List.replicate values.length 0) := by
  constructor
  · intro h
    by_cases h8 : sparkline.length < 8
    · simp [calculate_score, h8]
    · have hlen : 8 ≤ (sparkQ sparkline).length := by
        rw [sparkQ, List.length_map]; omega
      have hprev : ¬ (0 : ℚ) < meanQ (prior4 (sparkQ sparkline)) := not_lt.mpr h
      simp [calculate_score, h8, hlen, hprev]
  · rintro (h2 | hstd)
    · simp [normalize_score, h2]
    · by_cases h2 : values.length < 2 <;> simp [normalize_score, h2, hstd]

/-- Witness for C8: prior-4 mean 0 on `[0,0,0,0,5,5,5,5]` gives percent
change 0, and the zero-deviation batch `[3, 3]` normalizes to `[0, 0]`. -/
theorem c8_degenerate_math_zero_witness :
    (meanQ (prior4 (sparkQ [0, 0, 0, 0, 5, 5, 5, 5])) ≤ 0 ∧
      (calculate_score id [0, 0, 0, 0, 5, 5, 5, 5]).2.1 = 0) ∧
    (stdQ id [3, 3] = 0 ∧ normalize_score id [3, 3] = List.replicate 2 0) := by
  have h1 : meanQ (prior4 (sparkQ [0, 0, 0, 0, 5, 5, 5, 5])) ≤ 0 := by
    norm_num [meanQ, prior4, sparkQ]
  have h2 : stdQ id [3, 3] = 0 := by
    norm_num [stdQ, varianceQ, meanQ]
  exact ⟨⟨h1, (c8_degenerate_math_zero id [0, 0, 0, 0, 5, 5, 5, 5] []).1 h1⟩,
    ⟨h2, (c8_degenerate_math_zero id [] [3, 3]).2 (Or.inr h2)⟩⟩

/-- C2: on a batch whose sparklines all have at least 8 samples (the
pipeline invariant), the final scoring pass writes into topic `i` exactly
`z(slope_i) + 0.7·z(percentChange_i) − 0.3·z(volatility_i)`, where `slope_i`
is the least-squares slope recomputed from the last 8 samples of topic `i`'s
sparkline, `volatility_i` is the population standard deviation of the full
sparkline, and `z` is the batch z-score normalization applied independently
to the three component vectors, with exact weights 1.0, 0.7, −0.3. -/
theorem c2_final_scores_formula (sqrt : ℚ → ℚ) (all_topics : List Topic)
    (h8 : ∀ t ∈ all_topics, 8 ≤ t.sparkline.length) :
    calculate_final_scores sqrt all_topics = all_topics.mapIdx (fun i topic =>
      { topic with score :=
          (normalize_score sqrt (all_topics.map specSlope))[i]! +
          0.7 * (normalize_score sqrt (all_topics.map (·.percentChange)))[i]! -
          0.3 * (normalize_score sqrt (all_topics.map (specVolatility sqrt)))[i]! }) := by
  unfold calculate_final_scores
  by_cases he : all_topics.isEmpty
  · rw [if_pos he, List.isEmpty_iff.mp he]
    simp
  · rw [if_neg he]
    simp only []
    have hs : all_topics.map (fun topic =>
        if 8 ≤ topic.sparkline.length then
          if 1 < (lastN 8 (sparkQ topic.sparkline)).length then
            polyfitSlope (lastN 8 (sparkQ topic.sparkline))
          else 0
        else 0) = all_topics.map specSlope := by
      refine List.map_congr_left (fun t ht => ?_)
      have h1 := h8 t ht
      have hlen : (lastN 8 (sparkQ t.sparkline)).length = 8 := by
        simp only [lastN, List.length_drop, sparkQ, List.length_map]
        omega
      rw [if_pos h1, hlen, if_pos (by norm_num : (1 : ℕ) < 8)]
      rfl
    have hv : all_topics.map (fun topic =>
        if 1 < topic.sparkline.length then stdQ sqrt (sparkQ topic.sparkline) else 0) =
        all_topics.map (specVolatility sqrt) := by
      refine List.map_congr_left (fun t ht => ?_)
      have h1 := h8 t ht
      rw [if_pos (by omega : 1 < t.sparkline.length)]
      rfl
    rw [hs, hv]

/-- Witness for C2 at the concrete two-topic batch `sampleBatch`. -/
theorem c2_final_scores_formula_witness :
    (∀ t ∈ sampleBatch, 8 ≤ t.sparkline.length) ∧
    calculate_final_scores id sampleBatch = sampleBatch.mapIdx (fun i topic =>
      { topic with score :=
          (normalize_score id (sampleBatch.map specSlope))[i]! +
          0.7 * (normalize_score id (sampleBatch.map (·.percentChange)))[i]! -
          0.3 * (normalize_score id (sampleBatch.map (specVolatility id)))[i]! }) :=
  ⟨by decide, c2_final_scores_formula id sampleBatch (by decide)⟩

/-- C3: `_passes_quality_filters` returns `True` exactly when all seven
spec gates hold — volume floor on the last-8 median, completeness (≥ 8
samples), volatility ≤ 50, last 4 samples not all zero, zero fraction
≤ 0.7, not (|slope| < 0.1 and |percentChange| < 5.0), and (when more than 4
samples) last-4 mean at most 10× the mean of the earlier samples; the
sequential early-return structure of the source is the same gate
conjunction. -/
theorem c3_quality_filters_iff (sparkline : List ℤ) (slope percent_change volatility min_volume : ℚ) :
    passes_quality_filters sparkline slope percent_change volatility min_volume = true ↔
      passesFiltersSpec sparkline slope percent_change volatility min_volume := by
  unfold passes_quality_filters passesFiltersSpec
  simp only []
  split_ifs with h1 h2 h3 h4 h5 h6 h7
  · simp only [Bool.false_eq_true, false_iff]
    rintro ⟨c1, -⟩
    exact absurd c1 (not_le.mpr h1)
  · simp only [Bool.false_eq_true, false_iff]
    rintro ⟨-, c2, -⟩
    omega
  · simp only [Bool.false_eq_true, false_iff]
    rintro ⟨-, -, c3, -⟩
    exact absurd c3 (not_le.mpr h3)
  · simp only [Bool.false_eq_true, false_iff]
    rintro ⟨-, -, -, c4, -⟩
    exact c4 (fun v hv => by simpa using (List.all_eq_true.mp h4) v hv)
  · simp only [Bool.false_eq_true, false_iff]
    rintro ⟨-, -, -, -, c5, -⟩
    exact absurd c5 (not_le.mpr h5)
  · simp only [Bool.false_eq_true, false_iff]
    rintro ⟨-, -, -, -, -, c6, -⟩
    exact c6 h6
  · simp only [Bool.false_eq_true, false_iff]
    rintro ⟨-, -, -, -, -, -, c7⟩
    exact absurd (c7 h7.1) (not_le.mpr h7.2)
  · simp only [true_iff]
    refine ⟨not_lt.mp h1, by omega, not_lt.mp h3, ?_, not_lt.mp h5, h6, ?_⟩
    · intro hall
      exact h4 (List.all_eq_true.mpr (fun v hv => by simpa using hall v hv))
    · intro hlen
      rcases not_and.mp h7 hlen with hle
      exact not_lt.mp hle

/-- C4: `_apply_final_filtering_and_capping` returns no topic with score
≤ 0, returns at most 150 topics on any input, and returns `[]` when every
input topic has non-positive score. -/
theorem c4_finalize_bounds (topics : List Topic) :
    (∀ t ∈ apply_final_filtering_and_capping topics, 0 < t.score) ∧
    (apply_final_filtering_and_capping topics).length ≤ 150 ∧
    ((∀ t ∈ topics, t.score ≤ 0) → apply_final_filtering_and_capping topics = []) := by
  unfold apply_final_filtering_and_capping
  by_cases he : topics.isEmpty
  · rw [if_pos he]
    rw [List.isEmpty_iff.mp he]
    simp
  · rw [if_neg he]
    simp only []
    set positive := topics.filter (fun t => decide (0 < t.score)) with hpos
    have hmem_pos : ∀ t ∈ positive, 0 < t.score := by
      intro t ht
      have := (List.mem_filter.mp ht).2
      simpa using this
    by_cases hq : positive.isEmpty
    · rw [if_pos hq]
      rw [List.isEmpty_iff.mp hq]
      simp
    · rw [if_neg hq]
      set quality := positive.filter
        (fun t => decide (npPercentile 10 (positive.map (·.score)) ≤ t.score)) with hqual
      have hmem_q : ∀ t ∈ quality, 0 < t.score := by
        intro t ht
        exact hmem_pos t (List.mem_filter.mp ht).1
      refine ⟨?_, ?_, ?_⟩
      · intro t ht
        by_cases hc : 150 < quality.length
        · rw [if_pos hc] at ht
          exact hmem_q t ((List.take_sublist 150 quality).subset ht)
        · rw [if_neg hc] at ht
          exact hmem_q t ht
      · by_cases hc : 150 < quality.length
        · rw [if_pos hc]
          rw [List.length_take]
          omega
        · rw [if_neg hc]
          omega
      · intro hall
        exfalso
        rcases List.isEmpty_eq_false_iff_exists_mem.mp (by simpa using hq) with ⟨t, ht⟩
        have h1 := hmem_pos t ht
        have h2 := hall t (List.mem_filter.mp ht).1
        exact absurd h1 (not_lt.mpr h2)

/-- Witness for C4 on a 2-topic batch with scores `-1` and `0`. -/
theorem c4_finalize_bounds_witness :
    apply_final_filtering_and_capping
        [⟨"a", "tech", -1, 0, [], "t0", "t0", 0, []⟩,
         ⟨"b", "tech", 0, 0, [], "t0", "t0", 0, []⟩] = [] ∧
    (apply_final_filtering_and_capping
        [⟨"a", "tech", -1, 0, [], "t0", "t0", 0, []⟩,
         ⟨"b", "tech", 0, 0, [], "t0", "t0", 0, []⟩]).length ≤ 150 :=
  ⟨(c4_finalize_bounds _).2.2 (by norm_num), (c4_finalize_bounds _).2.1⟩

/-- C1 (code bug): on a concrete term whose sparkline passes every quality
filter, the topic construction of `_process_category` does not produce a
topic whose `volume` is the last-8-sample median — it raises `NameError`,
because the dict literal at build_data.py 565 reads `int(median_volume)` and
`median_volume` is bound only inside `_passes_quality_filters`, not in
`_process_category`'s scope. -/
theorem c1_volume_name_error :
    passes_quality_filters [10, 10, 10, 10, 12, 12, 12, 12]
      (calculate_score id [10, 10, 10, 10, 12, 12, 12, 12]).1
      (calculate_score id [10, 10, 10, 10, 12, 12, 12, 12]).2.1
      (calculate_score id [10, 10, 10, 10, 12, 12, 12, 12]).2.2 1 = true ∧
    process_term id 1 "tech" "example" [10, 10, 10, 10, 12, 12, 12, 12] [] "t0" =
      some (Except.error "NameError: name median_volume is not defined") := by
  have hrange : List.range 8 = [0, 1, 2, 3, 4, 5, 6, 7] := by decide
  have hc : calculate_score id [10, 10, 10, 10, 12, 12, 12, 12] = (8 / 21, 20, 1) := by
    norm_num [calculate_score, lastN, sparkQ, prior4, meanQ, polyfitSlope, stdQ, varianceQ,
      hrange]
  have hpass : passes_quality_filters [10, 10, 10, 10, 12, 12, 12, 12]
      ((8 : ℚ) / 21) 20 1 1 = true := by
    norm_num [passes_quality_filters, medianQ, lastN, dropLastN, sparkQ, meanQ,
      List.insertionSort, List.orderedInsert]
  have hmem : "median_volume" ∉ process_category_locals := by decide
  constructor
  · rw [hc]
    exact hpass
  · unfold process_term
    rw [hc]
    simp only []
    rw [if_pos (by exact_mod_cast hpass)]
    simp [eval_median_volume, hmem]

/-- The category loop accumulator with a general initial batch. -/
theorem collect_categories_foldl (results : List (Except String (List Topic)))
    (acc : List Topic) :
    results.foldl (fun acc r => match r with
      | Except.ok ts => acc ++ ts
      | Except.error _ => acc) acc = acc ++ collect_categories results := by
  induction results generalizing acc with
  | nil => simp [collect_categories]
  | cons r rest ih =>
    cases r with
    | ok ts =>
      show List.foldl _ (acc ++ ts) rest = _
      rw [ih]
      show _ = acc ++ List.foldl _ ([] ++ ts) rest
      rw [ih]
      simp
    | error e =>
      show List.foldl _ acc rest = _
      rw [ih]
      show _ = acc ++ List.foldl _ [] rest
      rw [ih]
      simp [collect_categories]

/-- C9: the modelled `run` reports success exactly when persisting the final
list succeeds (all other stage failures are swallowed), and a category whose
processing raises is skipped while every other category's topics are still
accumulated. -/
theorem c9_run_failure_iff_save (cats : List (Except String (List Topic)))
    (dedup_stage score_stage filter_stage : List Topic → Except String (List Topic))
    (save_stage : List Topic → Except String Unit) :
    ((run_pipeline cats dedup_stage score_stage filter_stage save_stage).1 = true ↔
      save_stage ((run_pipeline cats dedup_stage score_stage filter_stage save_stage).2) =
        Except.ok ()) ∧
    (∀ xs e ys, collect_categories (xs ++ Except.error e :: ys) =
      collect_categories xs ++ collect_categories ys) := by
  constructor
  · unfold run_pipeline
    simp only []
    rcases h : save_stage (try_stage filter_stage
        ((try_stage score_stage (try_stage dedup_stage
          (collect_categories cats))).insertionSort scoreGe)) with u | err
    · cases h' : u
      simp [h]
    · simp [h]
  · intro xs e ys
    unfold collect_categories
    rw [List.foldl_append]
    show List.foldl _ (List.foldl _ [] xs) ys = _
    rw [collect_categories_foldl ys (List.foldl _ [] xs)]
    rfl

/-- Every dynamic similarity threshold is at least 75. -/
theorem threshold_ge_75 (a b : String) : 75 ≤ calculate_similarity_threshold a b := by
  unfold calculate_similarity_threshold
  split_ifs <;> norm_num

/-- Loop invariant of the inner duplicate scan: once `is_duplicate` is set
the best similarity is positive, and a positive best similarity means
`best_match` points at a scanned (or initially supplied) topic. -/
theorem bestLoop_props (F : FuzzAlgs) (nt : String) (P : Topic → Prop) :
    ∀ (l : List Topic) (d : Bool) (b : Option Topic) (s : ℚ),
    (∀ e ∈ l, P e) →
    (d = true → 0 < s) →
    (0 < s → ∃ bm, b = some bm ∧ P bm) →
    ((bestLoop F nt l (d, b, s)).1 = true → 0 < (bestLoop F nt l (d, b, s)).2.2) ∧
    (0 < (bestLoop F nt l (d, b, s)).2.2 →
      ∃ bm, (bestLoop F nt l (d, b, s)).2.1 = some bm ∧ P bm) := by
  intro l
  induction l with
  | nil =>
    intro d b s hmem hd hb
    simp only [bestLoop]
    exact ⟨hd, hb⟩
  | cons e rest ih =>
    intro d b s hmem hd hb
    simp only [bestLoop]
    by_cases hth : ((calculate_similarity_threshold nt (normalize_term_for_dedup e.term) : ℕ) : ℚ) <
        maxSim F nt (normalize_term_for_dedup e.term)
    · rw [if_pos hth]
      have h75 : (75 : ℚ) ≤
          ((calculate_similarity_threshold nt (normalize_term_for_dedup e.term) : ℕ) : ℚ) := by
        exact_mod_cast threshold_ge_75 nt (normalize_term_for_dedup e.term)
      have hm : (0 : ℚ) < maxSim F nt (normalize_term_for_dedup e.term) :=
        lt_of_lt_of_le (by norm_num : (0 : ℚ) < 75) h75 |>.trans hth
      refine ih _ _ _ (fun x hx => hmem x (List.mem_cons_of_mem _ hx)) ?_ ?_
      · intro _
        by_cases hsm : s < maxSim F nt (normalize_term_for_dedup e.term)
        · rw [if_pos hsm]; exact hm
        · rw [if_neg hsm]; exact lt_of_lt_of_le hm (not_lt.mp hsm)
      · intro hpos
        by_cases hsm : s < maxSim F nt (normalize_term_for_dedup e.term)
        · rw [if_pos hsm]
          exact ⟨e, rfl, hmem e (List.mem_cons_self _ _)⟩
        · rw [if_neg hsm] at hpos ⊢
          exact hb hpos
    · rw [if_neg hth]
      exact ih _ _ _ (fun x hx => hmem x (List.mem_cons_of_mem _ hx)) hd hb

/-- If the duplicate scan over `kept` flags a duplicate, its best match is a
member of `kept`. -/
theorem bestLoop_true_mem (F : FuzzAlgs) (nt : String) (kept : List Topic)
    (h : (bestLoop F nt kept (false, none, 0)).1 = true) :
    ∃ bm, (bestLoop F nt kept (false, none, 0)).2.1 = some bm ∧ bm ∈ kept := by
  have hp := bestLoop_props F nt (· ∈ kept) kept false none 0
    (fun e he => he) (by simp) (by norm_num)
  exact hp.2 (hp.1 h)

/-- When the candidate's score is at most every kept topic's score, the
faithful walk step agrees with the replacement-free step: the replacement
branch cannot fire. -/
theorem dedupStep_eq_NR (F : FuzzAlgs) (kept : List Topic) (seen : List String) (t : Topic)
    (h : ∀ k ∈ kept, t.score ≤ k.score) :
    dedupStep F (kept, seen) t = dedupStepNR F (kept, seen) t := by
  unfold dedupStep dedupStepNR
  simp only []
  by_cases hs : normalize_term_for_dedup t.term ∈ seen
  · rw [if_pos hs, if_pos hs]
  · rw [if_neg hs, if_neg hs]
    cases hb : (bestLoop F (normalize_term_for_dedup t.term) kept (false, none, 0)).1 with
    | false => simp [hb]
    | true =>
      rcases bestLoop_true_mem F (normalize_term_for_dedup t.term) kept hb with ⟨bm, hsome, hmem⟩
      have hno : ¬ bm.score < t.score := not_lt.mpr (h bm hmem)
      rw [hsome]
      simp [hno]

/-- Each replacement-free step either leaves the state unchanged or appends
the candidate. -/
theorem dedupStepNR_cases (F : FuzzAlgs) (kept : List Topic) (seen : List String) (t : Topic) :
    dedupStepNR F (kept, seen) t = (kept, seen) ∨
    dedupStepNR F (kept, seen) t =
      (kept ++ [t], normalize_term_for_dedup t.term :: seen) := by
  unfold dedupStepNR
  simp only []
  split_ifs
  · exact Or.inl rfl
  · exact Or.inl rfl
  · exact Or.inr rfl

/-- Over a descending-score list, the faithful walk and the replacement-free
walk compute the same state from any state whose kept topics dominate the
remaining candidates' scores. -/
theorem foldl_dedupStep_eq_NR (F : FuzzAlgs) :
    ∀ (l kept : List Topic) (seen : List String),
    List.Sorted scoreGe l →
    (∀ k ∈ kept, ∀ t ∈ l, t.score ≤ k.score) →
    List.foldl (dedupStep F) (kept, seen) l = List.foldl (dedupStepNR F) (kept, seen) l := by
  intro l
  induction l with
  | nil => intros; rfl
  | cons t rest ih =>
    intro kept seen hsort hinv
    have hstep : dedupStep F (kept, seen) t = dedupStepNR F (kept, seen) t :=
      dedupStep_eq_NR F kept seen t (fun k hk => hinv k hk t (List.mem_cons_self _ _))
    rw [List.foldl_cons, List.foldl_cons, hstep]
    have hsort' : List.Sorted scoreGe rest := (List.sorted_cons.mp hsort).2
    have hhead : ∀ u ∈ rest, u.score ≤ t.score := fun u hu => (List.sorted_cons.mp hsort).1 u hu
    rcases dedupStepNR_cases F kept seen t with hcase | hcase
    · rw [hcase]
      exact ih _ _ hsort' (fun k hk u hu => hinv k hk u (List.mem_cons_of_mem _ hu))
    · rw [hcase]
      refine ih _ _ hsort' ?_
      intro k hk u hu
      rcases List.mem_append.mp hk with hk' | hk'
      · exact hinv k hk' u (List.mem_cons_of_mem _ hu)
      · rw [List.mem_singleton.mp hk']
        exact hhead u hu

/-- Theorem: `_deduplicate_topics` never takes its replacement branch: it equals the
replacement-free deduplication. -/
theorem deduplicate_topics_eq_NR (F : FuzzAlgs) (topics : List Topic) :
    deduplicate_topics F topics = dedupNR F topics := by
  unfold deduplicate_topics dedupNR
  by_cases he : topics.isEmpty
  · rw [if_pos he, if_pos he]
  · rw [if_neg he, if_neg he]
    simp only []
    rw [foldl_dedupStep_eq_NR F _ [] [] (List.sorted_insertionSort scoreGe topics) (by simp)]

/-- The replacement-free walk is the pure greedy selection `keptExtend`,
provided the seen-set coincides with the normalized kept terms. -/
theorem foldl_NR_eq_keptExtend (F : FuzzAlgs) :
    ∀ (l kept : List Topic) (seen : List String),
    (∀ s : String, s ∈ seen ↔ s ∈ kept.map (fun k => normalize_term_for_dedup k.term)) →
    (List.foldl (dedupStepNR F) (kept, seen) l).1 = keptExtend F kept l := by
  intro l
  induction l with
  | nil => intro kept seen _; rfl
  | cons t rest ih =>
    intro kept seen hinv
    rw [List.foldl_cons]
    unfold dedupStepNR keptExtend
    simp only []
    by_cases hs : normalize_term_for_dedup t.term ∈ seen
    · rw [if_pos hs]
      rw [if_neg (fun hand => hand.1 ((hinv _).mp hs))]
      exact ih kept seen hinv
    · rw [if_neg hs]
      by_cases hb : (bestLoop F (normalize_term_for_dedup t.term) kept (false, none, 0)).1 = true
      · rw [if_pos hb]
        rw [if_neg (fun hand => by rw [hand.2] at hb; exact Bool.false_ne_true hb)]
        exact ih kept seen hinv
      · rw [if_neg hb]
        rw [if_pos ⟨fun hmm => hs ((hinv _).mpr hmm), Bool.not_eq_true _ ▸ hb⟩]
        apply ih
        intro str
        simp only [List.mem_cons, List.map_append, List.mem_append, List.map_cons,
          List.map_nil, List.mem_singleton]
        rw [hinv str]
        tauto

/-- Greedy selection always returns its start extended by a `KeptChain`
which is a sublist of the candidates. -/
theorem keptExtend_spec (F : FuzzAlgs) :
    ∀ (l pre : List Topic), ∃ tail, keptExtend F pre l = pre ++ tail ∧
      KeptChain F pre tail ∧ tail.Sublist l := by
  intro l
  induction l with
  | nil =>
    intro pre
    exact ⟨[], by simp [keptExtend], KeptChain.nil pre, List.nil_sublist []⟩
  | cons t rest ih =>
    intro pre
    unfold keptExtend
    simp only []
    by_cases hc : normalize_term_for_dedup t.term ∉
        pre.map (fun k => normalize_term_for_dedup k.term) ∧
        (bestLoop F (normalize_term_for_dedup t.term) pre (false, none, 0)).1 = false
    · rw [if_pos hc]
      rcases ih (pre ++ [t]) with ⟨tail, heq, hchain, hsub⟩
      refine ⟨t :: tail, by rw [heq]; simp, ?_, ?_⟩
      · exact KeptChain.cons pre t tail hc.1 hc.2 hchain
      · exact List.Sublist.cons₂ t hsub
    · rw [if_neg hc]
      rcases ih pre with ⟨tail, heq, hchain, hsub⟩
      exact ⟨tail, heq, hchain, hsub.cons t⟩

/-- Feeding a `KeptChain` back into the greedy selection keeps everything. -/
theorem keptExtend_of_chain (F : FuzzAlgs) :
    ∀ (tail pre : List Topic), KeptChain F pre tail → keptExtend F pre tail = pre ++ tail := by
  intro tail
  induction tail with
  | nil => intro pre _; simp [keptExtend]
  | cons t rest ih =>
    intro pre hch
    cases hch with
    | cons _ _ _ hseen hdup htail =>
      unfold keptExtend
      simp only []
      rw [if_pos ⟨hseen, hdup⟩]
      rw [ih (pre ++ [t]) htail]
      simp

/-- On a non-empty input, `_deduplicate_topics` is the greedy selection over
the score-sorted input. -/
theorem deduplicate_topics_eq_keptExtend (F : FuzzAlgs) (topics : List Topic)
    (he : topics.isEmpty = false) :
    deduplicate_topics F topics = keptExtend F [] (topics.insertionSort scoreGe) := by
  rw [deduplicate_topics_eq_NR]
  unfold dedupNR
  rw [if_neg (by rw [he]; exact Bool.false_ne_true)]
  exact foldl_NR_eq_keptExtend F _ [] [] (by simp)

/-- C10: `_deduplicate_topics` sorts its input by descending score first, so
the replacement branch of the duplicate walk never executes — the walk
equals the replacement-free walk — and the output is a subsequence of the
score-sorted input and is itself in descending score order. -/
theorem c10_no_replacement_sorted_sublist (F : FuzzAlgs) (topics : List Topic) :
    deduplicate_topics F topics = dedupNR F topics ∧
    (deduplicate_topics F topics).Sublist (topics.insertionSort scoreGe) ∧
    List.Sorted scoreGe (deduplicate_topics F topics) := by
  refine ⟨deduplicate_topics_eq_NR F topics, ?_⟩
  by_cases he : topics.isEmpty
  · have h0 : deduplicate_topics F topics = topics := by
      unfold deduplicate_topics; rw [if_pos he]
    rw [h0, List.isEmpty_iff.mp he]
    exact ⟨List.nil_sublist _, List.sorted_nil⟩
  · have he' : topics.isEmpty = false := Bool.not_eq_true _ ▸ he
    rcases keptExtend_spec F (topics.insertionSort scoreGe) [] with ⟨tail, heq, _, hsub⟩
    have hout : deduplicate_topics F topics = tail := by
      rw [deduplicate_topics_eq_keptExtend F topics he', heq]
      simp
    rw [hout]
    exact ⟨hsub, List.Pairwise.sublist hsub (List.sorted_insertionSort scoreGe topics)⟩

/-- C6: `_deduplicate_topics` is idempotent — applied to its own output it
returns that output unchanged (so in particular the same set of topics). -/
theorem c6_deduplicate_idempotent (F : FuzzAlgs) (topics : List Topic) :
    deduplicate_topics F (deduplicate_topics F topics) = deduplicate_topics F topics := by
  by_cases he : topics.isEmpty
  · have h0 : deduplicate_topics F topics = topics := by
      unfold deduplicate_topics; rw [if_pos he]
    rw [h0]
    exact h0
  · have he' : topics.isEmpty = false := Bool.not_eq_true _ ▸ he
    rcases keptExtend_spec F (topics.insertionSort scoreGe) [] with ⟨tail, heq, hchain, hsub⟩
    have hout : deduplicate_topics F topics = tail := by
      rw [deduplicate_topics_eq_keptExtend F topics he', heq]
      simp
    rw [hout]
    by_cases hoe : tail.isEmpty
    · unfold deduplicate_topics
      rw [if_pos hoe]
    · have hoe' : tail.isEmpty = false := Bool.not_eq_true _ ▸ hoe
      have hsorted : List.Sorted scoreGe tail :=
        List.Pairwise.sublist hsub (List.sorted_insertionSort scoreGe topics)
      rw [deduplicate_topics_eq_keptExtend F tail hoe',
        List.Sorted.insertionSort_eq hsorted]
      have := keptExtend_of_chain F tail [] hchain
      rw [this]
      simp

end BuildData
